import Mathlib

set_option maxRecDepth 40000

/-!  Verification of the multilingual retrieval and type-aware chunking core
of the Thai-Cybersecurity-RAG repository.

The definitions below are a shallow embedding of `src/retrieval.py` and
`src/rag_pipeline.py`.  Python strings are modelled as Lean `String`
(sequences of unicode code points, matching Python semantics for slicing,
substring tests and concatenation).  Python `str.lower` is modelled for the
character set this repository manipulates (ASCII plus the Thai block, where
Thai has no case) by `pyToLower`.  Python `str.isalnum` is modelled by
`pyIsAlnum` on the same character set; code points outside ASCII and the
Thai block are treated as non-alphanumeric.  Similarity scores, which are
ChromaDB distances, are modelled as integers; the float division
`thai_chars / total_chars > 0.3` is modelled exactly as
`10 * thai_chars > 3 * total_chars`.  The external vector index is a
parameter `search`; a raised exception from an index call is modelled as
`Except.error`.  -/

/-- A LangChain `Document` restricted to the fields the repository reads:
`page_content` plus the metadata keys probed by `rag_pipeline.py`
(`doc_type`, `slide_num`, `extraction_method`, `content_type`).  A missing
metadata key is `none`. -/
structure Doc where
  pageContent : String
  docType : Option String := none
  slideNum : Option Int := none
  extractionMethod : Option String := none
  contentType : Option String := none
deriving DecidableEq, Repr

/-- Python `str.lower` on one character, for the ASCII range; Thai characters
(and every other non-uppercase-ASCII code point) are fixed, exactly as
Python fixes them. -/
def pyToLower (c : Char) : Char :=
  if 'A' ≤ c && c ≤ 'Z' then Char.ofNat (c.toNat + 32) else c

/-- Python `str.lower` on a whole string (character-wise, see `pyToLower`). -/
def pyLower (s : String) : String := ⟨s.data.map pyToLower⟩

/-- Python substring test `pat in hay` on strings. -/
def strContains (hay pat : String) : Bool := decide (pat.data <:+: hay.data)

/-- Python `sep.join(parts)`. -/
def pyJoin (sep : String) : List String → String
  | [] => ""
  | [s] => s
  | s :: rest => s ++ sep ++ pyJoin sep rest

/-- Membership test in the Thai unicode block, the comparison
U+0E00 <= c <= U+0E7F from `detect_language`. -/
def isThaiBlockChar (c : Char) : Bool := '฀' ≤ c && c ≤ '๿'

/-- Python `str.isalnum` on one character, modelled for ASCII and the Thai
block: ASCII digits and letters, Thai letters (Lo/Lm: U+0E01–U+0E2E,
U+0E30, U+0E32–U+0E33, U+0E40–U+0E46) and Thai digits (U+0E50–U+0E59) are
alphanumeric; combining marks (U+0E31, U+0E34–U+0E3A, U+0E47–U+0E4E), the
currency sign U+0E3F, the punctuation characters U+0E2F (paiyannoi),
U+0E4F, U+0E5A and U+0E5B, and every code point outside these ranges are
not. -/
def pyIsAlnum (c : Char) : Bool :=
  ('0' ≤ c && c ≤ '9') || ('A' ≤ c && c ≤ 'Z') || ('a' ≤ c && c ≤ 'z') ||
  ('ก' ≤ c && c ≤ 'ฮ') || (c == 'ะ') || ('า' ≤ c && c ≤ 'ำ') ||
  ('เ' ≤ c && c ≤ 'ๆ') || ('๐' ≤ c && c ≤ '๙')

/-- Embedding of `detect_language` (retrieval.py, lines 43-61): count the
characters of the whole text lying in the Thai block, count the
alphanumeric characters, return `en` when the latter count is zero,
otherwise `th` exactly when `thai_chars / total_chars > 0.3` (modelled
exactly as `10 * thai_chars > 3 * total_chars`). -/
def detect_language (text : String) : String :=
  let thai_chars := text.data.countP isThaiBlockChar
  let total_chars := text.data.countP pyIsAlnum
  if total_chars = 0 then "en"
  else if 3 * total_chars < 10 * thai_chars then "th" else "en"

/-- The module-level dict `THAI_SECURITY_KEYWORDS` (retrieval.py, lines
14-38), as an association list in Python dict insertion order. -/
def THAI_SECURITY_KEYWORDS : List (String × String) :=
  [("web security", "ความปลอดภัยเว็บไซต์"),
   ("website security", "ความปลอดภัยเว็บไซต์"),
   ("security standard", "มาตรฐานความปลอดภัย"),
   ("security controls", "มาตรการความปลอดภัย"),
   ("controls", "มาตรการ"),
   ("government", "ภาครัฐ"),
   ("requirements", "ข้อกำหนด"),
   ("access control", "การควบคุมการเข้าถึง"),
   ("authentication", "การยืนยันตัวตน"),
   ("encryption", "การเข้ารหัส"),
   ("monitoring", "การตรวจสอบ"),
   ("incident response", "การตอบสนองเหตุการณ์"),
   ("risk management", "การจัดการความเสี่ยง"),
   ("logging", "การบันทึก"),
   ("audit", "การตรวจสอบ"),
   ("vulnerability", "ช่องโหว่"),
   ("injection", "การแทรก"),
   ("broken access", "การควบคุมการเข้าถึงที่เสียหาย")]

/-- One Python dict assignment `d[key] = value` on an association list kept
in insertion order: an existing key keeps its position and gets the new
value, a new key is appended. -/
def dictInsert (l : List (String × String)) (kv : String × String) :
    List (String × String) :=
  if l.any (fun p => p.1 == kv.1) then
    l.map (fun p => if p.1 == kv.1 then (p.1, kv.2) else p)
  else l ++ [kv]

/-- The inverse dict `ENGLISH_SECURITY_KEYWORDS = {v: k for k, v in
THAI_SECURITY_KEYWORDS.items()}` (retrieval.py, line 40), with Python dict
comprehension semantics (first insertion fixes the position, later
assignments to a duplicate key overwrite the value). -/
def ENGLISH_SECURITY_KEYWORDS : List (String × String) :=
  (THAI_SECURITY_KEYWORDS.map (fun p => (p.2, p.1))).foldl dictInsert []

/-- Variant A of the `en` branch of `expand_query_with_translations`
(retrieval.py, lines 79-82): the query with the Thai translation of every
case-insensitively matched English glossary term appended, in glossary
order. -/
def expandedQueryEn (query : String) : String :=
  THAI_SECURITY_KEYWORDS.foldl
    (fun acc p =>
      if strContains (pyLower query) (pyLower p.1) then acc ++ " " ++ p.2
      else acc) query

/-- The matched Thai translations of the `en` branch (retrieval.py, lines
87-91), in glossary order; variant B is their space-join. -/
def thaiOnly (query : String) : List String :=
  (THAI_SECURITY_KEYWORDS.filter
    (fun p => strContains (pyLower query) (pyLower p.1))).map Prod.snd

/-- Variant A of the `th` branch (retrieval.py, lines 98-101): the query
with the English translation of every exactly-matched Thai glossary term
appended, in inverse-glossary order. -/
def expandedQueryTh (query : String) : String :=
  ENGLISH_SECURITY_KEYWORDS.foldl
    (fun acc p => if strContains query p.1 then acc ++ " " ++ p.2 else acc)
    query

/-- Embedding of `expand_query_with_translations` (retrieval.py, lines
64-106).  The original query is first; for an `en` query variant A
(`expandedQueryEn`) is appended when different from the original and
variant B (the space-join of `thaiOnly`) when a term matched; for a `th`
query variant A (`expandedQueryTh`) is appended when different from the
original; any other language value yields the original alone. -/
def expand_query_with_translations (query : String) (detected_lang : String) :
    List String :=
  if detected_lang = "en" then
    let queries := if expandedQueryEn query ≠ query then
      [query, expandedQueryEn query] else [query]
    if thaiOnly query ≠ [] then queries ++ [pyJoin " " (thaiOnly query)]
    else queries
  else if detected_lang = "th" then
    if expandedQueryTh query ≠ query then [query, expandedQueryTh query]
    else [query]
  else [query]

/-- The indicator list of `is_thai_related_query` (retrieval.py, lines
119-122). -/
def thai_indicators : List String :=
  ["thailand", "thai", "ไทย", "ภาครัฐ", "มาตรฐาน", "พ.ศ.", "ncsa", "government"]

/-- Embedding of `is_thai_related_query` (retrieval.py, lines 109-125):
lowercase the query and test each indicator for substring occurrence. -/
def is_thai_related_query (query : String) : Bool :=
  thai_indicators.any (fun indicator => strContains (pyLower query) indicator)

/-- The indicator list of `filter_irrelevant_pages` (retrieval.py, lines
139-146). -/
def irrelevant_indicators : List String :=
  ["บรรณานุกรม", "bibliography", "references", "สารบัญ", "table of contents",
   "อ้างอิง"]

/-- True when the lowercased page content of the document contains one of
the noise markers (the per-document test of `filter_irrelevant_pages`). -/
def isIrrelevantDoc (d : Doc) : Bool :=
  irrelevant_indicators.any
    (fun indicator => strContains (pyLower d.pageContent) indicator)

/-- Embedding of `filter_irrelevant_pages` (retrieval.py, lines 128-167):
drop every scored document whose lowercased text contains a noise marker;
when that removes everything from a non-empty input, return the original
input unchanged instead. -/
def filter_irrelevant_pages (results_with_scores : List (Doc × Int))
    (query : String) : List (Doc × Int) :=
  let filtered := results_with_scores.filter (fun p => !(isIrrelevantDoc p.1))
  if filtered = [] ∧ results_with_scores ≠ [] then results_with_scores
  else filtered

/-- The deduplication fingerprint: the first 100 characters of the raw page
content (retrieval.py, line 245), used verbatim. -/
def fingerprintOf (d : Doc) : String := d.pageContent.take 100

/-- The deduplication loop of `retrieve_documents_multilingual`
(retrieval.py, lines 240-248): walk the list in order, keep a pair when its
fingerprint was not seen before, record the fingerprint.  `seen` is the
Python set `seen_content`. -/
def dedupGo (seen : List String) : List (Doc × Int) → List (Doc × Int)
  | [] => []
  | p :: rest =>
    if fingerprintOf p.1 ∈ seen then dedupGo seen rest
    else p :: dedupGo (fingerprintOf p.1 :: seen) rest

/-- Deduplication starting from an empty seen-set. -/
def dedupFP (l : List (Doc × Int)) : List (Doc × Int) := dedupGo [] l

/-- Specification-side deduplication, named after the words of the claim:
keep exactly the first occurrence of each fingerprint in input order and
discard every later pair with the same fingerprint regardless of score.  It
is compared with the source-side `dedupFP` in the theorem for C2. -/
def dedupSpecFirstWins : List (Doc × Int) → List (Doc × Int)
  | [] => []
  | p :: rest =>
    p :: dedupSpecFirstWins
      (rest.filter (fun q => fingerprintOf q.1 ≠ fingerprintOf p.1))
termination_by l => l.length
decreasing_by
  exact Nat.lt_succ_of_le (List.length_filter_le _ _)

/-- The comparison of the final sort of `retrieve_documents_multilingual`
(retrieval.py, line 251): ascending score, lower is better.  Python
`list.sort` is a stable sort; it is modelled by `List.insertionSort`, which
is also stable, and a stable ascending sort of a list is unique. -/
def scoreRel (a b : Doc × Int) : Prop := a.2 ≤ b.2

instance : DecidableRel scoreRel := fun a b => inferInstanceAs (Decidable (a.2 ≤ b.2))

instance : IsTotal (Doc × Int) scoreRel := ⟨fun a b => Int.le_total a.2 b.2⟩

instance : IsTrans (Doc × Int) scoreRel := ⟨fun _ _ _ h1 h2 => le_trans h1 h2⟩

/-- The adaptive-k computation of `retrieve_documents_multilingual`
(retrieval.py, lines 209-211): when `adaptive_k` is set and the query is
detected as Thai or flagged as Thai-related, the search width becomes
`min(k + 5, 15)`; otherwise the requested `k` is used unchanged. -/
def adapted_k (query : String) (k : Nat) (adaptive_k : Bool) : Nat :=
  if adaptive_k &&
      (detect_language query == "th" || is_thai_related_query query) then
    min (k + 5) 15
  else k

/-- One iteration of the expansion loop (retrieval.py, lines 221-232): a
variant whose stripped text equals the stripped original query is skipped
without an index call; otherwise one search with the adapted k is issued,
its results are appended on success and the variant is skipped on failure.
The accumulator carries the issued calls and the collected results. -/
def expansionStep (search : String → Nat → Except Unit (List (Doc × Int)))
    (kA : Nat) (query : String)
    (acc : List (String × Nat) × List (Doc × Int)) (exq : String) :
    List (String × Nat) × List (Doc × Int) :=
  if exq.trim ≠ query.trim then
    match search exq kA with
    | Except.ok r => (acc.1 ++ [(exq, kA)], acc.2 ++ r)
    | Except.error _ => (acc.1 ++ [(exq, kA)], acc.2)
  else acc

/-- The expansion loop of `retrieve_documents_multilingual` (retrieval.py,
lines 217-232): starting from the original call and its results, fold
`expansionStep` over the expansion variants after the original. -/
def retrieveAggregate
    (search : String → Nat → Except Unit (List (Doc × Int)))
    (query : String) (k : Nat) (adaptive_k : Bool)
    (results : List (Doc × Int)) :
    List (String × Nat) × List (Doc × Int) :=
  ((expand_query_with_translations query (detect_language query)).drop 1).foldl
    (expansionStep search (adapted_k query k adaptive_k) query)
    ([(query, adapted_k query k adaptive_k)], results)

/-- The tail of `retrieve_documents_multilingual` (retrieval.py, lines
234-254): optional noise filtering, fingerprint deduplication, stable
ascending sort by score, truncation to the original requested k. -/
def retrieveFinish (query : String) (k : Nat) (filter_pages : Bool)
    (agg : List (String × Nat) × List (Doc × Int)) :
    List (String × Nat) × Except Unit (List (Doc × Int)) :=
  (agg.1, Except.ok ((List.insertionSort scoreRel
    (dedupFP (if filter_pages then filter_irrelevant_pages agg.2 query
      else agg.2))).take k))

/-- Embedding of `retrieve_documents_multilingual` (retrieval.py, lines
185-254), instrumented with the list of issued index calls (query text and
requested width).  The first search, with the original query, is issued
outside any protection, so its failure makes the whole call fail; each
further variant goes through `expansionStep` (see `retrieveAggregate`); the
collected results then pass through `retrieveFinish`. -/
def retrieveMultiCore (search : String → Nat → Except Unit (List (Doc × Int)))
    (query : String) (k : Nat) (adaptive_k filter_pages : Bool) :
    List (String × Nat) × Except Unit (List (Doc × Int)) :=
  match search query (adapted_k query k adaptive_k) with
  | Except.error e => ([(query, adapted_k query k adaptive_k)], Except.error e)
  | Except.ok results =>
    retrieveFinish query k filter_pages
      (retrieveAggregate search query k adaptive_k results)

/-- The documents returned to the caller: the scored pairs of
`retrieveMultiCore` stripped of their scores (retrieval.py, line 254). -/
def retrieve_documents_multilingual
    (search : String → Nat → Except Unit (List (Doc × Int)))
    (query : String) (k : Nat) (adaptive_k filter_pages : Bool) :
    Except Unit (List Doc) :=
  match (retrieveMultiCore search query k adaptive_k filter_pages).2 with
  | Except.error e => Except.error e
  | Except.ok pairs => Except.ok (pairs.map Prod.fst)

/-- The textbook probe of `_chunk_all_content` (rag_pipeline.py, line 162):
the key `doc_type` is present and equals `textbook`. -/
def probeTextbook (d : Doc) : Bool :=
  d.docType.isSome && (d.docType == some "textbook")

/-- The slide probe (rag_pipeline.py, line 163): the key `slide_num` is
present. -/
def probeSlide (d : Doc) : Bool := d.slideNum.isSome

/-- The Thai probe (rag_pipeline.py, line 164): `extraction_method` equals
`pytesseract_ocr`. -/
def probeThai (d : Doc) : Bool := d.extractionMethod == some "pytesseract_ocr"

/-- The textbook sublist of `_chunk_all_content`. -/
def textbookDocsOf (docs : List Doc) : List Doc := docs.filter probeTextbook

/-- The slide sublist of `_chunk_all_content`. -/
def slideDocsOf (docs : List Doc) : List Doc := docs.filter probeSlide

/-- The Thai sublist of `_chunk_all_content`. -/
def thaiDocsOf (docs : List Doc) : List Doc := docs.filter probeThai

/-- The remainder sublist of `_chunk_all_content` (rag_pipeline.py, line
165): documents not occurring in the concatenation of the other three
lists, with Python `in` being value-equality membership of documents. -/
def otherDocsOf (docs : List Doc) : List Doc :=
  docs.filter (fun d =>
    decide (d ∉ textbookDocsOf docs ++ slideDocsOf docs ++ thaiDocsOf docs))

/-- The sort key of `_chunk_slide_style` (rag_pipeline.py, line 221):
`metadata.get('slide_num', 0)`. -/
def slideSortKey (d : Doc) : Int := d.slideNum.getD 0

/-- The ordering used by the stable sort of `_chunk_slide_style`
(`sorted` in Python is stable, modelled by the stable
`List.insertionSort`). -/
def slideRel (a b : Doc) : Prop := slideSortKey a ≤ slideSortKey b

instance : DecidableRel slideRel :=
  fun a b => inferInstanceAs (Decidable (slideSortKey a ≤ slideSortKey b))

/-- The groupby key of `_chunk_slide_style` (rag_pipeline.py, line 224):
`metadata.get('slide_num')`, with no default. -/
def slideGroupKey (d : Doc) : Option Int := d.slideNum

/-- The worker of `groupRuns`: `cur` is a representative of the current
run, `acc` the current run collected in reverse. -/
def groupRunsGo (cur : Doc) (acc : List Doc) : List Doc → List (List Doc)
  | [] => [acc.reverse]
  | e :: rest =>
    if slideGroupKey e == slideGroupKey cur then groupRunsGo cur (e :: acc) rest
    else acc.reverse :: groupRunsGo e [e] rest

/-- Python `itertools.groupby` on the slide group key: maximal consecutive
runs of equal keys. -/
def groupRuns : List Doc → List (List Doc)
  | [] => []
  | d :: rest => groupRunsGo d [d] rest

/-- The special-content test of `_chunk_slide_style` (rag_pipeline.py, line
229): content type table, diagram or image. -/
def isSpecialContent (d : Doc) : Bool :=
  d.contentType == some "table" || d.contentType == some "diagram" ||
    d.contentType == some "image"

/-- The chunks one slide group contributes (rag_pipeline.py, lines 225-239):
when the group has TEXT items, their texts joined by newlines are split by
the (external, hence parametric) splitter `createDocs` with the metadata of
the first TEXT item; the TABLE/DIAGRAM/image items of the group follow
unmodified. -/
def slideGroupChunks (createDocs : String → Doc → List Doc)
    (g : List Doc) : List Doc :=
  let text_items := g.filter (fun d => d.contentType == some "text")
  let special_items := g.filter isSpecialContent
  (match text_items with
   | [] => []
   | t0 :: _ =>
     createDocs (pyJoin "\n" (text_items.map Doc.pageContent)) t0) ++
    special_items

/-- Embedding of `_chunk_slide_style` (rag_pipeline.py, lines 206-241):
stable-sort the documents by slide number (default 0), group consecutive
equal slide keys, and concatenate each group's chunks.  The langchain
window-1000/overlap-100 splitter is the parameter `createDocs`. -/
def chunkSlideStyle (createDocs : String → Doc → List Doc)
    (docs : List Doc) : List Doc :=
  let sorted_docs := List.insertionSort slideRel docs
  (groupRuns sorted_docs).foldl
    (fun acc g => acc ++ slideGroupChunks createDocs g) []

/-- Embedding of `_chunk_all_content` (rag_pipeline.py, lines 152-195): the
four metadata-probe sublists are built; each non-empty one is chunked with
its strategy (textbook and other share the window-1000/overlap-200 recursive
splitter `tbSplit`; Thai uses the window-800/overlap-150 splitter
`thaiSplit`; slides use `chunkSlideStyle`) and the chunk lists are
concatenated in that order. -/
def chunkAllContent (tbSplit thaiSplit : List Doc → List Doc)
    (createDocs : String → Doc → List Doc) (docs : List Doc) : List Doc :=
  (if textbookDocsOf docs ≠ [] then tbSplit (textbookDocsOf docs) else []) ++
  (if slideDocsOf docs ≠ [] then chunkSlideStyle createDocs (slideDocsOf docs)
   else []) ++
  (if thaiDocsOf docs ≠ [] then thaiSplit (thaiDocsOf docs) else []) ++
  (if otherDocsOf docs ≠ [] then tbSplit (otherDocsOf docs) else [])

/-- Specification-side language detection, following the words of claim C5:
count only those Thai-block characters that are alphanumeric, keeping every
other step of `detect_language` identical.  Compared against the
source-side `detect_language`. -/
def detectLanguageSpecC5 (text : String) : String :=
  let thai_chars := text.data.countP (fun c => pyIsAlnum c && isThaiBlockChar c)
  let total_chars := text.data.countP pyIsAlnum
  if total_chars = 0 then "en"
  else if 3 * total_chars < 10 * thai_chars then "th" else "en"

/-- Concrete document for witnesses: text `aaa`. -/
def wDocA : Doc := ⟨"aaa", none, none, none, none⟩

/-- Concrete document for witnesses: text `bbb`. -/
def wDocB : Doc := ⟨"bbb", none, none, none, none⟩

/-- Concrete document for witnesses: a bibliography page. -/
def wDocBib : Doc := ⟨"Bibliography of works", none, none, none, none⟩

/-- Concrete index oracle for witnesses: always succeeds with a fixed result
list containing a duplicated fingerprint and unsorted scores. -/
def wSearchDup : String → Nat → Except Unit (List (Doc × Int)) :=
  fun _ _ => Except.ok [(wDocA, 2), (wDocB, 1), (wDocA, 3)]

/-- Concrete index oracle for witnesses: always succeeds with no results. -/
def wSearchEmpty : String → Nat → Except Unit (List (Doc × Int)) :=
  fun _ _ => Except.ok []

/-- Concrete index oracle failing exactly on the original query
`web security` and succeeding on every expansion variant. -/
def wSearchFailOriginal : String → Nat → Except Unit (List (Doc × Int)) :=
  fun q _ => if q == "web security" then Except.error () else Except.ok []

/-- Concrete index oracle succeeding exactly on the original query
`web security` and failing on every expansion variant. -/
def wSearchFailVariants : String → Nat → Except Unit (List (Doc × Int)) :=
  fun q _ => if q == "web security" then Except.ok [] else Except.error ()

/-- Concrete slide document for witnesses: TEXT on slide 1. -/
def wSlideText : Doc := ⟨"s1", none, some 1, none, some "text"⟩

/-- Concrete slide document for witnesses: TABLE on slide 1. -/
def wSlideTable : Doc := ⟨"tbl", none, some 1, none, some "table"⟩

/-- Concrete splitter for witnesses: one chunk carrying the joined text and
the slide number of the metadata document. -/
def wCreateDocs : String → Doc → List Doc :=
  fun s m => [⟨s, none, m.slideNum, none, some "text"⟩]

/-- Concrete document matching both the textbook and the slide metadata
probes, for the C9 counterexample. -/
def wDualDoc : Doc := ⟨"tbl", some "textbook", some 1, none, some "table"⟩

/-- Concrete document matching none of the metadata probes, for the C9
witness. -/
def wUnknownDoc : Doc := ⟨"x", none, none, none, none⟩

/-! ## Theorems -/

lemma dedupSpec_cons (p : Doc × Int) (rest : List (Doc × Int)) :
    dedupSpecFirstWins (p :: rest) =
      p :: dedupSpecFirstWins
        (rest.filter (fun q => fingerprintOf q.1 ≠ fingerprintOf p.1)) := by
  simp [dedupSpecFirstWins]

lemma dedupGo_eq_spec (l : List (Doc × Int)) : ∀ seen : List String,
    dedupGo seen l =
      dedupSpecFirstWins
        (l.filter (fun p => decide (fingerprintOf p.1 ∉ seen))) := by
  induction l with
  | nil => intro seen; simp [dedupGo, dedupSpecFirstWins]
  | cons p rest ih =>
    intro seen
    by_cases hp : fingerprintOf p.1 ∈ seen
    · simp [dedupGo, hp, List.filter_cons, ih seen]
    · simp only [dedupGo, if_neg hp]
      rw [ih (fingerprintOf p.1 :: seen)]
      rw [List.filter_cons, if_pos (decide_eq_true hp)]
      rw [dedupSpec_cons]
      refine congrArg (List.cons p) ?_
      rw [List.filter_filter]
      refine congrArg dedupSpecFirstWins ?_
      refine List.filter_congr ?_
      intro x _
      by_cases h1 : fingerprintOf x.1 = fingerprintOf p.1 <;>
        by_cases h2 : fingerprintOf x.1 ∈ seen <;>
          simp [List.mem_cons, h1, h2]

/-- C2: the source-side deduplication of `retrieve_documents_multilingual`
(walk the list in order, keep a pair unless its 100-character fingerprint
was already seen) computes exactly the keep-the-first-occurrence,
discard-every-later-duplicate-regardless-of-score reduction stated by the
claim: reading the input in its existing order, the first pair of each
fingerprint, with its score, survives and every later pair with the same
fingerprint is dropped. -/
theorem dedup_keeps_first_occurrence (l : List (Doc × Int)) :
    dedupFP l = dedupSpecFirstWins l := by
  have h := dedupGo_eq_spec l []
  simpa [dedupFP] using h

lemma dedupGo_fingerprint_nodup (l : List (Doc × Int)) : ∀ seen : List String,
    (((dedupGo seen l).map (fun p => fingerprintOf p.1)).Nodup) ∧
      (∀ p ∈ dedupGo seen l, fingerprintOf p.1 ∉ seen) := by
  induction l with
  | nil => intro seen; simp [dedupGo]
  | cons p rest ih =>
    intro seen
    by_cases hp : fingerprintOf p.1 ∈ seen
    · simpa [dedupGo, hp] using ih seen
    · have ih2 := ih (fingerprintOf p.1 :: seen)
      constructor
      · simp only [dedupGo, if_neg hp, List.map_cons, List.nodup_cons]
        refine ⟨?_, ih2.1⟩
        intro hmem
        rcases List.mem_map.mp hmem with ⟨q, hq, hfq⟩
        exact (ih2.2 q hq) (by rw [hfq]; exact List.mem_cons_self _ _)
      · intro q hq
        simp only [dedupGo, if_neg hp, List.mem_cons] at hq
        rcases hq with rfl | hq
        · exact hp
        · intro hmem
          exact (ih2.2 q hq) (List.mem_cons_of_mem _ hmem)

/-- C4: the noise filter of `filter_irrelevant_pages` never empties a
non-empty candidate list: when every passage of a non-empty input contains
a noise marker in its lowercased text, the original input list is returned
unchanged (a total function, never an error). -/
theorem noise_filter_fallback_noop (l : List (Doc × Int)) (q : String)
    (hne : l ≠ []) (hall : ∀ p ∈ l, isIrrelevantDoc p.1 = true) :
    filter_irrelevant_pages l q = l := by
  have hfil : l.filter (fun p => !(isIrrelevantDoc p.1)) = [] := by
    rw [List.filter_eq_nil_iff]
    intro p hp
    simp [hall p hp]
  unfold filter_irrelevant_pages
  simp [hfil, hne]

/-- Witness for C4 at a concrete one-element bibliography list. -/
theorem noise_filter_fallback_noop_witness :
    filter_irrelevant_pages [(wDocBib, 1)] "q" = [(wDocBib, 1)] :=
  noise_filter_fallback_noop [(wDocBib, 1)] "q" (by decide)
    (by intro p hp; simp only [List.mem_singleton] at hp; subst hp; decide)

/-- C5 counterexample: the claim says `detect` counts the Thai-block
characters among the alphanumeric characters; the code counts Thai-block
characters of the whole text.  On the input `a฿฿` (one ASCII letter and two
Thai baht signs, which are in the Thai block but not alphanumeric) the code
returns `th` while the counting rule stated by the claim returns `en`. -/
theorem detect_language_not_alnum_restricted :
    detect_language "a฿฿" = "th" ∧ detectLanguageSpecC5 "a฿฿" = "en" := by
  constructor <;> decide

/-- C5 as amended: `detect_language` counts Thai-block characters over the
whole input (not only among the alphanumeric ones); it returns `en` when
the count of alphanumeric characters is zero and returns `th` exactly when
that count is positive and the Thai-to-alphanumeric ratio exceeds 3/10; it
is a pure function of its input. -/
theorem detect_language_whole_text_characterization (t : String) :
    (t.data.countP pyIsAlnum = 0 → detect_language t = "en") ∧
    (detect_language t = "th" ↔
      t.data.countP pyIsAlnum ≠ 0 ∧
        3 * t.data.countP pyIsAlnum < 10 * t.data.countP isThaiBlockChar) := by
  unfold detect_language
  constructor
  · intro h; simp [h]
  · by_cases h0 : t.data.countP pyIsAlnum = 0
    · simp [h0]
    · by_cases hlt :
        3 * t.data.countP pyIsAlnum < 10 * t.data.countP isThaiBlockChar
      · simp [h0, hlt]
      · simp [h0, hlt]

/-- Witness for C5 as amended, at the empty string (zero alphanumeric
characters) and at a pure-Thai string (ratio above 3/10). -/
theorem detect_language_whole_text_characterization_witness :
    detect_language "" = "en" ∧ detect_language "กกก" = "th" :=
  ⟨(detect_language_whole_text_characterization "").1 (by decide),
   (detect_language_whole_text_characterization "กกก").2.mpr (by decide)⟩

lemma expansionStep_fst (s : String → Nat → Except Unit (List (Doc × Int)))
    (kA : Nat) (q : String) (acc : List (String × Nat) × List (Doc × Int))
    (x : String) :
    (expansionStep s kA q acc x).1 = acc.1 ∨
      (expansionStep s kA q acc x).1 = acc.1 ++ [(x, kA)] := by
  unfold expansionStep
  by_cases hx : x.trim ≠ q.trim
  · rw [if_pos hx]
    cases s x kA <;> simp
  · rw [if_neg hx]
    exact Or.inl rfl

lemma foldl_expansion_calls_extend
    (s : String → Nat → Except Unit (List (Doc × Int))) (kA : Nat)
    (q : String) (L : List String)
    (acc : List (String × Nat) × List (Doc × Int)) :
    ∃ t, (L.foldl (expansionStep s kA q) acc).1 = acc.1 ++ t := by
  induction L generalizing acc with
  | nil => exact ⟨[], by simp⟩
  | cons x L ih =>
    rw [List.foldl_cons]
    obtain ⟨t, ht⟩ := ih (expansionStep s kA q acc x)
    rcases expansionStep_fst s kA q acc x with h | h
    · exact ⟨t, by rw [ht, h]⟩
    · exact ⟨(x, kA) :: t, by rw [ht, h]; simp⟩

lemma foldl_expansion_calls_k
    (s : String → Nat → Except Unit (List (Doc × Int))) (kA : Nat)
    (q : String) (L : List String)
    (acc : List (String × Nat) × List (Doc × Int))
    (hacc : ∀ c ∈ acc.1, c.2 = kA) :
    ∀ c ∈ (L.foldl (expansionStep s kA q) acc).1, c.2 = kA := by
  induction L generalizing acc with
  | nil => simpa using hacc
  | cons x L ih =>
    rw [List.foldl_cons]
    refine ih (expansionStep s kA q acc x) ?_
    intro c hc
    rcases expansionStep_fst s kA q acc x with h | h
    · exact hacc c (h ▸ hc)
    · rw [h] at hc
      rcases List.mem_append.mp hc with hc | hc
      · exact hacc c hc
      · simp only [List.mem_singleton] at hc
        rw [hc]

lemma retrieveMultiCore_of_error
    (s : String → Nat → Except Unit (List (Doc × Int))) (q : String)
    (k : Nat) (a f : Bool) (e : Unit)
    (hs : s q (adapted_k q k a) = Except.error e) :
    retrieveMultiCore s q k a f =
      ([(q, adapted_k q k a)], Except.error e) := by
  unfold retrieveMultiCore
  rw [hs]

lemma retrieveMultiCore_of_ok
    (s : String → Nat → Except Unit (List (Doc × Int))) (q : String)
    (k : Nat) (a f : Bool) (results : List (Doc × Int))
    (hs : s q (adapted_k q k a) = Except.ok results) :
    retrieveMultiCore s q k a f =
      retrieveFinish q k f (retrieveAggregate s q k a results) := by
  unfold retrieveMultiCore
  rw [hs]

lemma retrieveMultiCore_calls_shape
    (s : String → Nat → Except Unit (List (Doc × Int))) (q : String)
    (k : Nat) (a f : Bool) :
    ∃ t, (retrieveMultiCore s q k a f).1 = (q, adapted_k q k a) :: t ∧
      ∀ c ∈ (retrieveMultiCore s q k a f).1, c.2 = adapted_k q k a := by
  cases hs : s q (adapted_k q k a) with
  | error e =>
    rw [retrieveMultiCore_of_error s q k a f e hs]
    refine ⟨[], rfl, ?_⟩
    intro c hc
    simp only [List.mem_singleton] at hc
    rw [hc]
  | ok results =>
    rw [retrieveMultiCore_of_ok s q k a f results hs]
    obtain ⟨t, ht⟩ := foldl_expansion_calls_extend s (adapted_k q k a) q
      ((expand_query_with_translations q (detect_language q)).drop 1)
      ([(q, adapted_k q k a)], results)
    refine ⟨t, ?_, ?_⟩
    · show (retrieveAggregate s q k a results).1 = _
      unfold retrieveAggregate
      rw [ht]
      rfl
    · show ∀ c ∈ (retrieveAggregate s q k a results).1, c.2 = adapted_k q k a
      unfold retrieveAggregate
      refine foldl_expansion_calls_k s (adapted_k q k a) q _ _ ?_
      intro c hc
      simp only [List.mem_singleton] at hc
      rw [hc]

lemma retrieveMultiCore_snd_shape
    (s : String → Nat → Except Unit (List (Doc × Int))) (q : String)
    (k : Nat) (a f : Bool) :
    ((retrieveMultiCore s q k a f).2 = Except.error ()) ∨
      ∃ base, (retrieveMultiCore s q k a f).2 =
        Except.ok ((List.insertionSort scoreRel (dedupFP base)).take k) := by
  cases hs : s q (adapted_k q k a) with
  | error e =>
    rw [retrieveMultiCore_of_error s q k a f e hs]
    exact Or.inl rfl
  | ok results =>
    rw [retrieveMultiCore_of_ok s q k a f results hs]
    exact Or.inr ⟨_, rfl⟩

lemma retrieveMultiCore_ok_length
    (s : String → Nat → Except Unit (List (Doc × Int))) (q : String)
    (k : Nat) (a f : Bool) (pairs : List (Doc × Int))
    (h : (retrieveMultiCore s q k a f).2 = Except.ok pairs) :
    pairs.length ≤ k := by
  rcases retrieveMultiCore_snd_shape s q k a f with he | ⟨base, hb⟩
  · rw [he] at h
    exact Except.noConfusion h
  · rw [hb] at h
    injection h with h
    subst h
    exact List.length_take_le k _

/-- C1: whenever the multilingual retrieval succeeds, the retained scored
pairs number at most the original requested k (even when an adapted k was
used for the search calls), their fingerprints (first 100 characters of the
text) are pairwise distinct, the list is sorted by non-decreasing score,
and the documents returned to the caller are exactly these pairs stripped
of their scores. -/
theorem retrieve_returns_bounded_unique_sorted
    (s : String → Nat → Except Unit (List (Doc × Int))) (q : String)
    (k : Nat) (a f : Bool) (pairs : List (Doc × Int))
    (h : (retrieveMultiCore s q k a f).2 = Except.ok pairs) :
    pairs.length ≤ k ∧
      (pairs.map (fun p => fingerprintOf p.1)).Nodup ∧
      pairs.Pairwise (fun x y => x.2 ≤ y.2) ∧
      retrieve_documents_multilingual s q k a f =
        Except.ok (pairs.map Prod.fst) := by
  rcases retrieveMultiCore_snd_shape s q k a f with he | ⟨base, hb⟩
  · rw [he] at h
    exact Except.noConfusion h
  · have hdm : retrieve_documents_multilingual s q k a f =
        Except.ok (pairs.map Prod.fst) := by
      unfold retrieve_documents_multilingual
      rw [h]
    rw [hb] at h
    injection h with h
    subst h
    refine ⟨?_, ?_, ?_, hdm⟩
    · exact List.length_take_le k _
    · have hn : ((dedupFP base).map (fun p => fingerprintOf p.1)).Nodup := by
        simpa [dedupFP] using (dedupGo_fingerprint_nodup base []).1
      have hperm :
          (List.insertionSort scoreRel (dedupFP base)).Perm (dedupFP base) :=
        List.perm_insertionSort _ _
      have hn2 : ((List.insertionSort scoreRel (dedupFP base)).map
          (fun p => fingerprintOf p.1)).Nodup :=
        ((hperm.map _).nodup_iff).mpr hn
      rw [List.map_take]
      exact hn2.sublist (List.take_sublist _ _)
    · have hs2 : (List.insertionSort scoreRel (dedupFP base)).Pairwise
          scoreRel := List.sorted_insertionSort scoreRel (dedupFP base)
      have hs3 := List.Pairwise.sublist (List.take_sublist k _) hs2
      exact hs3.imp (fun h => h)

/-- Witness for C1 at a concrete oracle returning a duplicated fingerprint
and unsorted scores. -/
theorem retrieve_returns_bounded_unique_sorted_witness :
    ([(wDocB, 1), (wDocA, 2)] : List (Doc × Int)).length ≤ 2 ∧
      (([(wDocB, 1), (wDocA, 2)] : List (Doc × Int)).map
        (fun p => fingerprintOf p.1)).Nodup ∧
      ([(wDocB, 1), (wDocA, 2)] : List (Doc × Int)).Pairwise
        (fun x y => x.2 ≤ y.2) ∧
      retrieve_documents_multilingual wSearchDup "x" 2 true true =
        Except.ok [wDocB, wDocA] :=
  retrieve_returns_bounded_unique_sorted wSearchDup "x" 2 true true
    [(wDocB, 1), (wDocA, 2)] rfl

/-- C3: when adaptive k applies (flag set, and the query detected as Thai
or containing a Thai-content marker) every issued index search call, the
original query included, requests exactly min(k + 5, 15); otherwise every
issued call requests the unchanged k; in both cases a successful result
list is bounded by the original requested k. -/
theorem adaptive_k_uniform_calls
    (s : String → Nat → Except Unit (List (Doc × Int))) (q : String)
    (k : Nat) (a f : Bool) :
    ((a && (detect_language q == "th" || is_thai_related_query q)) = true →
      ∀ c ∈ (retrieveMultiCore s q k a f).1, c.2 = min (k + 5) 15) ∧
    ((a && (detect_language q == "th" || is_thai_related_query q)) = false →
      ∀ c ∈ (retrieveMultiCore s q k a f).1, c.2 = k) ∧
    (∀ pairs, (retrieveMultiCore s q k a f).2 = Except.ok pairs →
      pairs.length ≤ k) := by
  obtain ⟨t, _, hall⟩ := retrieveMultiCore_calls_shape s q k a f
  refine ⟨?_, ?_, ?_⟩
  · intro hcond c hc
    have := hall c hc
    rwa [adapted_k, if_pos hcond] at this
  · intro hcond c hc
    have := hall c hc
    rwa [adapted_k, if_neg (by rw [hcond]; exact Bool.false_ne_true)] at this
  · intro pairs hp
    exact retrieveMultiCore_ok_length s q k a f pairs hp

/-- Witness for C3: with adaptive k on a Thai-related English query the
issued calls all request min(3 + 5, 15) = 8; on an unrelated query they
request the unchanged 3; a successful empty result respects the bound. -/
theorem adaptive_k_uniform_calls_witness :
    (∀ c ∈ (retrieveMultiCore wSearchEmpty "thai" 3 true true).1,
      c.2 = min (3 + 5) 15) ∧
    (∀ c ∈ (retrieveMultiCore wSearchEmpty "zzz" 3 true true).1, c.2 = 3) ∧
    (([] : List (Doc × Int)).length ≤ 3) :=
  ⟨(adaptive_k_uniform_calls wSearchEmpty "thai" 3 true true).1 (by decide),
   (adaptive_k_uniform_calls wSearchEmpty "zzz" 3 true true).2.1 (by decide),
   (adaptive_k_uniform_calls wSearchEmpty "zzz" 3 true true).2.2 [] rfl⟩

/-- C7 counterexample: the claim says an empty or blank query is rejected
before any index call, as a validation failure with no work performed; the
code has no such validation.  On the blank query a search call with the
blank query itself is issued against the index and the call returns
normally with an empty result, not a validation failure. -/
theorem blank_query_not_rejected :
    (retrieveMultiCore wSearchEmpty " " 5 true true).1 = [(" ", 5)] ∧
      (retrieveMultiCore wSearchEmpty " " 5 true true).2 = Except.ok [] :=
  ⟨rfl, rfl⟩

/-- C7 as amended: the core retrieval operation performs no query
validation at all: for every query, blank or not, the first issued index
call carries the original query text (with the adapted k); blank-query
rejection exists only in the UI wrapper (app.py), outside the core. -/
theorem retrieval_always_issues_original_search
    (s : String → Nat → Except Unit (List (Doc × Int))) (q : String)
    (k : Nat) (a f : Bool) :
    (retrieveMultiCore s q k a f).1.head? = some (q, adapted_k q k a) := by
  obtain ⟨t, ht, _⟩ := retrieveMultiCore_calls_shape s q k a f
  rw [ht]
  rfl

/-- C8 counterexample: the claim says a failure of any variant's search,
the original query's search included, is caught and skipped; in the code
only the expansion variants are protected.  With an index failing exactly
on the original query `web security` (and succeeding on both expansion
variants), the whole retrieval call fails. -/
theorem original_search_failure_propagates :
    (retrieveMultiCore wSearchFailOriginal "web security" 3 true true).2 =
      Except.error () := rfl

/-- C8 as amended: a failure of an expansion variant's search after the
original query's own search is caught and skipped, aggregation continuing
with the remaining variants: whenever the original query's search succeeds
the whole retrieval call succeeds, whatever the other variants' outcomes;
only a failure of the original query's own search propagates. -/
theorem variant_failures_skipped_when_original_succeeds
    (s : String → Nat → Except Unit (List (Doc × Int))) (q : String)
    (k : Nat) (a f : Bool) (r0 : List (Doc × Int))
    (hs : s q (adapted_k q k a) = Except.ok r0) :
    ∃ pairs, (retrieveMultiCore s q k a f).2 = Except.ok pairs := by
  rw [retrieveMultiCore_of_ok s q k a f r0 hs]
  exact ⟨_, rfl⟩

/-- Witness for C8 as amended: the oracle fails on both expansion variants
of `web security` but succeeds on the original query, and the retrieval
call succeeds. -/
theorem variant_failures_skipped_when_original_succeeds_witness :
    ∃ pairs,
      (retrieveMultiCore wSearchFailVariants "web security" 3 true true).2 =
        Except.ok pairs :=
  variant_failures_skipped_when_original_succeeds wSearchFailVariants
    "web security" 3 true true [] rfl

lemma foldl_if_no_match (cond : String × String → Bool)
    (L : List (String × String)) : ∀ acc : String,
    (∀ p ∈ L, cond p = false) →
    L.foldl (fun acc p => if cond p then acc ++ " " ++ p.2 else acc) acc =
      acc := by
  induction L with
  | nil => intro acc _; rfl
  | cons x L ih =>
    intro acc h
    rw [List.foldl_cons, h x (List.mem_cons_self x L)]
    simp only [Bool.false_eq_true, if_false]
    exact ih acc (fun p hp => h p (List.mem_cons_of_mem x hp))

lemma mem_pyJoin_data (sep : String) : ∀ (L : List String) (c : Char),
    c ∈ (pyJoin sep L).data → c ∈ sep.data ∨ ∃ s ∈ L, c ∈ s.data := by
  intro L
  induction L with
  | nil => intro c hc; simp [pyJoin] at hc
  | cons s rest ih =>
    intro c hc
    cases rest with
    | nil =>
      exact Or.inr ⟨s, List.mem_cons_self s [], hc⟩
    | cons s2 rest2 =>
      have hc2 : c ∈ (s ++ sep ++ pyJoin sep (s2 :: rest2)).data := hc
      rw [String.data_append, String.data_append] at hc2
      rcases List.mem_append.mp hc2 with hc3 | hc3
      · rcases List.mem_append.mp hc3 with hc4 | hc4
        · exact Or.inr ⟨s, List.mem_cons_self s _, hc4⟩
        · exact Or.inl hc4
      · rcases ih c hc3 with hsep | ⟨s3, hs3, hcs3⟩
        · exact Or.inl hsep
        · exact Or.inr ⟨s3, List.mem_cons_of_mem s hs3, hcs3⟩

lemma keys_have_ascii_lower : ∀ p ∈ THAI_SECURITY_KEYWORDS,
    (pyLower p.1).data.any (fun c => 'a' ≤ c && c ≤ 'z') = true := by decide

lemma values_no_latin_lower : ∀ p ∈ THAI_SECURITY_KEYWORDS,
    p.2.data.all (fun c => !('a' ≤ c && c ≤ 'z')) = true := by decide

lemma values_no_latin_upper : ∀ p ∈ THAI_SECURITY_KEYWORDS,
    p.2.data.all (fun c => !('A' ≤ c && c ≤ 'Z')) = true := by decide

lemma pyToLower_eq_self {c : Char} (h : ('A' ≤ c && c ≤ 'Z') = false) :
    pyToLower c = c := by
  simp [pyToLower, h]

lemma eq_false_of_bnot {b : Bool} (h : (!b) = true) : b = false := by
  cases b
  · rfl
  · exact absurd h (by decide)

lemma join_thai_ne_query (q : String) (p : String × String)
    (hp : p ∈ THAI_SECURITY_KEYWORDS)
    (hmatch : strContains (pyLower q) (pyLower p.1) = true)
    (L : List String)
    (hL : ∀ s ∈ L, ∃ p2 ∈ THAI_SECURITY_KEYWORDS, s = p2.2) :
    q ≠ pyJoin " " L := by
  intro hq
  have hinf : (pyLower p.1).data <:+: (pyLower q).data :=
    of_decide_eq_true hmatch
  obtain ⟨c, hcmem, hcl⟩ := List.any_eq_true.mp (keys_have_ascii_lower p hp)
  have hcq : c ∈ (pyLower q).data := hinf.subset hcmem
  rw [hq] at hcq
  have hcq2 : c ∈ (pyJoin " " L).data.map pyToLower := hcq
  obtain ⟨c0, hc0mem, hc0eq⟩ := List.mem_map.mp hcq2
  rcases mem_pyJoin_data " " L c0 hc0mem with hsep | ⟨s, hsL, hcs⟩
  · have hc0 : c0 = ' ' := by simpa using hsep
    rw [hc0] at hc0eq
    rw [← hc0eq] at hcl
    exact absurd hcl (by decide)
  · obtain ⟨p2, hp2, rfl⟩ := hL s hsL
    have hlow : ('a' ≤ c0 && c0 ≤ 'z') = false :=
      eq_false_of_bnot
        (List.all_eq_true.mp (values_no_latin_lower p2 hp2) c0 hcs)
    have hupp : ('A' ≤ c0 && c0 ≤ 'Z') = false :=
      eq_false_of_bnot
        (List.all_eq_true.mp (values_no_latin_upper p2 hp2) c0 hcs)
    rw [pyToLower_eq_self hupp] at hc0eq
    rw [← hc0eq] at hcl
    rw [hcl] at hlow
    exact absurd hlow (by decide)

lemma thaiOnly_members (q : String) : ∀ s ∈ thaiOnly q,
    ∃ p2 ∈ THAI_SECURITY_KEYWORDS, s = p2.2 := by
  intro s hs
  rcases List.mem_map.mp hs with ⟨p2, hp2f, rfl⟩
  exact ⟨p2, (List.mem_filter.mp hp2f).1, rfl⟩

lemma thaiOnly_ne_nil_match (q : String) (h : thaiOnly q ≠ []) :
    ∃ p ∈ THAI_SECURITY_KEYWORDS,
      strContains (pyLower q) (pyLower p.1) = true := by
  by_contra hcon
  push_neg at hcon
  refine h ?_
  unfold thaiOnly
  rw [List.map_eq_nil_iff, List.filter_eq_nil_iff]
  intro p hp
  exact hcon p hp

/-- C6: for every query and every language value the expansion list starts
with the unmodified query, the query occurs exactly once in it, and when no
glossary term matches the query (neither an English term
case-insensitively nor a Thai term exactly) the expansion is exactly the
one-element list holding the query. -/
theorem expand_head_once_and_nomatch (q lang : String) :
    (expand_query_with_translations q lang).head? = some q ∧
    (expand_query_with_translations q lang).count q = 1 ∧
    ((∀ p ∈ THAI_SECURITY_KEYWORDS,
        strContains (pyLower q) (pyLower p.1) = false) →
      (∀ p ∈ ENGLISH_SECURITY_KEYWORDS, strContains q p.1 = false) →
      expand_query_with_translations q lang = [q]) := by
  by_cases hl : lang = "en"
  · simp only [expand_query_with_translations, if_pos hl]
    by_cases hT : thaiOnly q ≠ []
    · obtain ⟨p, hpK, hpc⟩ := thaiOnly_ne_nil_match q hT
      have hBne : q ≠ pyJoin " " (thaiOnly q) :=
        join_thai_ne_query q p hpK hpc (thaiOnly q) (thaiOnly_members q)
      by_cases hA : expandedQueryEn q ≠ q
      · rw [if_pos hT, if_pos hA]
        refine ⟨rfl, ?_, ?_⟩
        · have hAq : ¬(expandedQueryEn q = q) := hA
          simp [List.count_append, List.count_cons, hAq, Ne.symm hBne]
        · intro hEn _
          exact absurd (hEn p hpK) (by rw [hpc]; decide)
      · rw [if_pos hT, if_neg hA]
        refine ⟨rfl, ?_, ?_⟩
        · simp [List.count_append, List.count_cons, Ne.symm hBne]
        · intro hEn _
          exact absurd (hEn p hpK) (by rw [hpc]; decide)
    · by_cases hA : expandedQueryEn q ≠ q
      · rw [if_neg hT, if_pos hA]
        refine ⟨rfl, ?_, ?_⟩
        · have hAq : ¬(expandedQueryEn q = q) := hA
          simp [List.count_cons, hAq]
        · intro hEn _
          refine absurd ?_ hA
          exact foldl_if_no_match _ THAI_SECURITY_KEYWORDS q hEn
      · rw [if_neg hT, if_neg hA]
        refine ⟨rfl, by simp, ?_⟩
        intro _ _
        trivial
  · by_cases hl2 : lang = "th"
    · simp only [expand_query_with_translations, if_neg hl, if_pos hl2]
      by_cases hA : expandedQueryTh q ≠ q
      · rw [if_pos hA]
        refine ⟨rfl, ?_, ?_⟩
        · have hAq : ¬(expandedQueryTh q = q) := hA
          simp [List.count_cons, hAq]
        · intro _ hTh
          refine absurd ?_ hA
          exact foldl_if_no_match _ ENGLISH_SECURITY_KEYWORDS q hTh
      · rw [if_neg hA]
        refine ⟨rfl, by simp, ?_⟩
        intro _ _
        trivial
    · simp only [expand_query_with_translations, if_neg hl, if_neg hl2]
      refine ⟨rfl, by simp, ?_⟩
      intro _ _
      trivial

/-- Witness for C6 at a query matching no glossary term. -/
theorem expand_head_once_and_nomatch_witness :
    expand_query_with_translations "zzz" "en" = ["zzz"] :=
  (expand_head_once_and_nomatch "zzz" "en").2.2 (by decide) (by decide)

lemma bool_eq_false_of_not {b : Bool} (h : ¬ b = true) : b = false := by
  cases b
  · rfl
  · exact absurd rfl h

lemma mem_other_of_no_probe (docs : List Doc) (d : Doc) (hd : d ∈ docs)
    (h1 : probeTextbook d = false) (h2 : probeSlide d = false)
    (h3 : probeThai d = false) : d ∈ otherDocsOf docs := by
  refine List.mem_filter.mpr ⟨hd, decide_eq_true ?_⟩
  intro hmem
  rcases List.mem_append.mp hmem with hm | hm3
  · rcases List.mem_append.mp hm with hm1 | hm2
    · rw [(List.mem_filter.mp hm1).2] at h1
      exact Bool.noConfusion h1
    · rw [(List.mem_filter.mp hm2).2] at h2
      exact Bool.noConfusion h2
  · rw [(List.mem_filter.mp hm3).2] at h3
    exact Bool.noConfusion h3

/-- C9 counterexample: the claim says each item is dispatched to exactly
one splitting strategy; the metadata probes are independent, so a document
carrying both `doc_type = textbook` and a `slide_num` key lands in both the
textbook and the slide sublists and is chunked by both strategies (here it
appears twice in the output of the chunking operation). -/
theorem dual_probe_doc_chunked_twice :
    wDualDoc ∈ textbookDocsOf [wDualDoc] ∧
      wDualDoc ∈ slideDocsOf [wDualDoc] ∧
      (chunkAllContent id id (fun _ _ => []) [wDualDoc]).count wDualDoc = 2 :=
  ⟨by decide, by decide, by decide⟩

/-- C9 as amended: the chunking operation classifies by three independent
metadata probes; every input item is dispatched to at least one of the four
categories, an item matching several probes is dispatched to each matching
sublist, and an item of unknown or unset source tag (no probe matches)
falls into the other-documents sublist, which is chunked with the
textbook/other strategy rather than failing. -/
theorem chunk_classification_coverage_and_fallback (docs : List Doc)
    (d : Doc) (hd : d ∈ docs) :
    (d ∈ textbookDocsOf docs ∨ d ∈ slideDocsOf docs ∨
      d ∈ thaiDocsOf docs ∨ d ∈ otherDocsOf docs) ∧
    (probeTextbook d = false → probeSlide d = false →
      probeThai d = false → d ∈ otherDocsOf docs) := by
  constructor
  · by_cases h1 : probeTextbook d = true
    · exact Or.inl (List.mem_filter.mpr ⟨hd, h1⟩)
    · by_cases h2 : probeSlide d = true
      · exact Or.inr (Or.inl (List.mem_filter.mpr ⟨hd, h2⟩))
      · by_cases h3 : probeThai d = true
        · exact Or.inr (Or.inr (Or.inl (List.mem_filter.mpr ⟨hd, h3⟩)))
        · exact Or.inr (Or.inr (Or.inr (mem_other_of_no_probe docs d hd
            (bool_eq_false_of_not h1) (bool_eq_false_of_not h2)
            (bool_eq_false_of_not h3))))
  · exact mem_other_of_no_probe docs d hd

/-- Witness for C9 as amended: a document carrying none of the probed
metadata keys lands in the other-documents sublist. -/
theorem chunk_classification_coverage_and_fallback_witness :
    wUnknownDoc ∈ otherDocsOf [wUnknownDoc] :=
  (chunk_classification_coverage_and_fallback [wUnknownDoc] wUnknownDoc
    (by decide)).2 rfl rfl rfl

lemma groupRunsGo_join (l : List Doc) : ∀ (cur : Doc) (acc : List Doc),
    (groupRunsGo cur acc l).flatten = acc.reverse ++ l := by
  induction l with
  | nil => intro cur acc; simp [groupRunsGo]
  | cons e rest ih =>
    intro cur acc
    by_cases he : slideGroupKey e == slideGroupKey cur
    · rw [groupRunsGo, if_pos he, ih cur (e :: acc)]
      simp
    · rw [groupRunsGo, if_neg he]
      simp only [List.flatten_cons, ih e [e]]
      simp

lemma groupRuns_join (l : List Doc) : (groupRuns l).flatten = l := by
  cases l with
  | nil => rfl
  | cons d rest =>
    rw [groupRuns, groupRunsGo_join rest d [d]]
    rfl

lemma groupRunsGo_key (l : List Doc) : ∀ (cur : Doc) (acc : List Doc),
    (∀ x ∈ acc, slideGroupKey x = slideGroupKey cur) →
    ∀ g ∈ groupRunsGo cur acc l, ∃ kv, ∀ x ∈ g, slideGroupKey x = kv := by
  induction l with
  | nil =>
    intro cur acc hacc g hg
    simp only [groupRunsGo, List.mem_singleton] at hg
    refine ⟨slideGroupKey cur, ?_⟩
    intro x hx
    exact hacc x (List.mem_reverse.mp (hg ▸ hx))
  | cons e rest ih =>
    intro cur acc hacc g hg
    by_cases he : slideGroupKey e == slideGroupKey cur
    · rw [groupRunsGo, if_pos he] at hg
      refine ih cur (e :: acc) ?_ g hg
      intro x hx
      rcases List.mem_cons.mp hx with rfl | hx
      · exact eq_of_beq he
      · exact hacc x hx
    · rw [groupRunsGo, if_neg he] at hg
      rcases List.mem_cons.mp hg with rfl | hg
      · refine ⟨slideGroupKey cur, ?_⟩
        intro x hx
        exact hacc x (List.mem_reverse.mp hx)
      · refine ih e [e] ?_ g hg
        intro x hx
        rw [List.mem_singleton.mp hx]

lemma groupRuns_key (l : List Doc) : ∀ g ∈ groupRuns l,
    ∃ kv, ∀ x ∈ g, slideGroupKey x = kv := by
  cases l with
  | nil => intro g hg; simp [groupRuns] at hg
  | cons d rest =>
    intro g hg
    refine groupRunsGo_key rest d [d] ?_ g hg
    intro x hx
    rw [List.mem_singleton.mp hx]

lemma foldl_chunks_join (cd : String → Doc → List Doc)
    (groups : List (List Doc)) : ∀ acc : List Doc,
    groups.foldl (fun a g => a ++ slideGroupChunks cd g) acc =
      acc ++ (groups.map (slideGroupChunks cd)).flatten := by
  induction groups with
  | nil => intro acc; simp
  | cons g groups ih =>
    intro acc
    rw [List.foldl_cons, ih (acc ++ slideGroupChunks cd g)]
    simp

lemma mem_chunkSlideStyle (cd : String → Doc → List Doc) (docs : List Doc)
    (c : Doc) :
    c ∈ chunkSlideStyle cd docs ↔
      ∃ g ∈ groupRuns (List.insertionSort slideRel docs),
        c ∈ slideGroupChunks cd g := by
  unfold chunkSlideStyle
  rw [foldl_chunks_join]
  simp [List.mem_flatten]

lemma slideGroupChunks_cases (cd : String → Doc → List Doc) (g : List Doc)
    (c : Doc) (hc : c ∈ slideGroupChunks cd g) :
    (∃ t0 ts, g.filter (fun d => d.contentType == some "text") = t0 :: ts ∧
      c ∈ cd (pyJoin "\n" ((t0 :: ts).map Doc.pageContent)) t0) ∨
    (c ∈ g ∧ isSpecialContent c = true) := by
  simp only [slideGroupChunks] at hc
  rcases List.mem_append.mp hc with h | h
  · cases hft : g.filter (fun d => d.contentType == some "text") with
    | nil =>
      rw [hft] at h
      simp at h
    | cons t0 ts =>
      rw [hft] at h
      exact Or.inl ⟨t0, ts, rfl, h⟩
  · have hm := List.mem_filter.mp h
    exact Or.inr ⟨hm.1, hm.2⟩

lemma special_mem_slideGroupChunks (cd : String → Doc → List Doc)
    (g : List Doc) (d : Doc) (hd : d ∈ g) (hs : isSpecialContent d = true) :
    d ∈ slideGroupChunks cd g := by
  simp only [slideGroupChunks]
  exact List.mem_append.mpr (Or.inr (List.mem_filter.mpr ⟨hd, hs⟩))

lemma mem_group_mem_docs (docs : List Doc) (g : List Doc) (x : Doc)
    (hg : g ∈ groupRuns (List.insertionSort slideRel docs)) (hx : x ∈ g) :
    x ∈ docs := by
  have hj : x ∈ (groupRuns (List.insertionSort slideRel docs)).flatten :=
    List.mem_flatten.mpr ⟨g, hg, hx⟩
  rw [groupRuns_join] at hj
  exact (List.mem_insertionSort slideRel).mp hj

/-- C10: every chunk emitted by the slide chunker on a list of slide
documents (each carrying a slide number) either lies in the output of the
splitter applied to the newline-join of TEXT items that all carry one and
the same slide number — so text from different slides is never concatenated
— or is a TABLE/DIAGRAM/image item of the input passed through unmodified;
and every TABLE or DIAGRAM input item does appear in the output as such an
atomic chunk, its text byte-identical to the source text. -/
theorem slide_chunks_single_slide_and_passthrough
    (createDocs : String → Doc → List Doc) (docs : List Doc)
    (h : ∀ d ∈ docs, (d.slideNum).isSome = true) :
    (∀ c ∈ chunkSlideStyle createDocs docs,
      (∃ (n : Int) (ts : List Doc) (t0 : Doc), t0 ∈ ts ∧
        (∀ t ∈ ts, t ∈ docs ∧ t.slideNum = some n ∧
          t.contentType = some "text") ∧
        c ∈ createDocs (pyJoin "\n" (ts.map Doc.pageContent)) t0) ∨
      (c ∈ docs ∧ (c.contentType = some "table" ∨
        c.contentType = some "diagram" ∨ c.contentType = some "image"))) ∧
    (∀ d ∈ docs, (d.contentType = some "table" ∨
        d.contentType = some "diagram") →
      d ∈ chunkSlideStyle createDocs docs) := by
  constructor
  · intro c hc
    obtain ⟨g, hg, hcg⟩ := (mem_chunkSlideStyle createDocs docs c).mp hc
    rcases slideGroupChunks_cases createDocs g c hcg with
      ⟨t0, ts, hft, hcd⟩ | ⟨hcg2, hspec⟩
    · obtain ⟨kv, hkv⟩ := groupRuns_key _ g hg
      have ht0f : t0 ∈ g.filter (fun d => d.contentType == some "text") := by
        rw [hft]
        exact List.mem_cons_self _ _
      have ht0g : t0 ∈ g := (List.mem_filter.mp ht0f).1
      have ht0docs : t0 ∈ docs := mem_group_mem_docs docs g t0 hg ht0g
      obtain ⟨n, hn⟩ := Option.isSome_iff_exists.mp (h t0 ht0docs)
      have hkvn : kv = some n := by
        rw [← hkv t0 ht0g]
        exact hn
      refine Or.inl ⟨n, t0 :: ts, t0, List.mem_cons_self _ _, ?_, ?_⟩
      swap
      · exact hcd
      intro t ht
      have htf : t ∈ g.filter (fun d => d.contentType == some "text") := by
        rw [hft]
        exact ht
      have htg := List.mem_filter.mp htf
      refine ⟨mem_group_mem_docs docs g t hg htg.1, ?_, eq_of_beq htg.2⟩
      rw [show t.slideNum = slideGroupKey t from rfl, hkv t htg.1, hkvn]
    · refine Or.inr ⟨mem_group_mem_docs docs g c hg hcg2, ?_⟩
      rcases Bool.or_eq_true_iff.mp hspec with h1 | h2
      · rcases Bool.or_eq_true_iff.mp h1 with h3 | h4
        · exact Or.inl (eq_of_beq h3)
        · exact Or.inr (Or.inl (eq_of_beq h4))
      · exact Or.inr (Or.inr (eq_of_beq h2))
  · intro d hd hkind
    have hds : d ∈ List.insertionSort slideRel docs :=
      (List.mem_insertionSort slideRel).mpr hd
    have hj : d ∈ (groupRuns (List.insertionSort slideRel docs)).flatten := by
      rw [groupRuns_join]
      exact hds
    obtain ⟨g, hg, hdg⟩ := List.mem_flatten.mp hj
    have hspec : isSpecialContent d = true := by
      rcases hkind with h1 | h2
      · simp [isSpecialContent, h1]
      · simp [isSpecialContent, h2]
    exact (mem_chunkSlideStyle createDocs docs d).mpr
      ⟨g, hg, special_mem_slideGroupChunks createDocs g d hdg hspec⟩

/-- Witness for C10 at a two-item slide deck (TEXT and TABLE on slide 1):
the table item passes through as an atomic chunk. -/
theorem slide_chunks_single_slide_and_passthrough_witness :
    wSlideTable ∈ chunkSlideStyle wCreateDocs [wSlideText, wSlideTable] :=
  (slide_chunks_single_slide_and_passthrough wCreateDocs
    [wSlideText, wSlideTable] (by decide)).2 wSlideTable (by decide)
    (Or.inl rfl)
